import Mathlib

/-!
Verification of the trajectory-analysis configuration and runner core of the
repository (gromacs-2022, module trajectoryanalysis).

The repository sources provide the public headers `analysissettings.h` and
`runnercommon.h`.  The flag constants below are transcribed from the
`TrajectoryAnalysisSettings` enum in `analysissettings.h`.  The implementation
files of the two classes are not part of the sources, so the behaviour of
their operations is modelled from the specification (and from the behavioural
documentation of the headers); every such definition carries a doc comment
starting with the words Modelled from the spec.
-/

namespace Gromacs

/-- Flag constant from the enum in analysissettings.h: forces loading of a
topology file. -/
def efRequireTop : Nat := 1 <<< 0

/-- Flag constant from the enum in analysissettings.h: requests topology
coordinates. -/
def efUseTopX : Nat := 1 <<< 1

/-- Flag constant from the enum in analysissettings.h: requests topology
velocities. -/
def efUseTopV : Nat := 1 <<< 2

/-- Flag constant from the enum in analysissettings.h: disallows the user from
changing PBC handling. -/
def efNoUserPBC : Nat := 1 <<< 4

/-- Flag constant from the enum in analysissettings.h: disallows the user from
changing PBC removal. -/
def efNoUserRmPBC : Nat := 1 <<< 5

/-- Modelled from the spec: the default frame-read mask selects the position
channel only (the header documents the default as TRX_NEED_X). -/
def TRX_NEED_X : Nat := 1 <<< 1

/-- Modelled from the spec: the state of the TrajectoryAnalysisSettings
implementation class (analysissettings.cpp is not among the sources; only the
header with its behavioural documentation is).  It stores the requirement-flag
word, the frame-read mask and the two effective PBC booleans of spec sections
3 and 4.1. -/
structure TrajectoryAnalysisSettings where
  flags : Nat
  frflags : Nat
  bPBC : Bool
  bRmPBC : Bool
deriving DecidableEq

/-- Modelled from the spec: freshly initialized settings.  No requirement
flags are set, the frame-read mask is the position-only default, and both
PBC use and whole-molecule making default to on. -/
def TrajectoryAnalysisSettings.init : TrajectoryAnalysisSettings :=
  ⟨0, TRX_NEED_X, true, true⟩

/-- Modelled from the spec: setFlags replaces the whole flag word. -/
def TrajectoryAnalysisSettings.setFlags (s : TrajectoryAnalysisSettings) (m : Nat) :
    TrajectoryAnalysisSettings :=
  { s with flags := m }

/-- Modelled from the spec: setFlag sets or clears one individual flag. -/
def TrajectoryAnalysisSettings.setFlag (s : TrajectoryAnalysisSettings) (f : Nat)
    (bSet : Bool) : TrajectoryAnalysisSettings :=
  { s with flags := if bSet then s.flags ||| f else Nat.ldiff s.flags f }

/-- Modelled from the spec: hasFlag tests whether a flag is set in the flag
word. -/
def TrajectoryAnalysisSettings.hasFlag (s : TrajectoryAnalysisSettings) (f : Nat) : Bool :=
  decide (s.flags &&& f ≠ 0)

/-- Modelled from the spec: setPBC sets whether PBC are used; last call wins. -/
def TrajectoryAnalysisSettings.setPBC (s : TrajectoryAnalysisSettings) (b : Bool) :
    TrajectoryAnalysisSettings :=
  { s with bPBC := b }

/-- Modelled from the spec: setRmPBC sets whether molecules are made whole;
last call wins. -/
def TrajectoryAnalysisSettings.setRmPBC (s : TrajectoryAnalysisSettings) (b : Bool) :
    TrajectoryAnalysisSettings :=
  { s with bRmPBC := b }

/-- Modelled from the spec: setFrameFlags replaces the frame-read mask. -/
def TrajectoryAnalysisSettings.setFrameFlags (s : TrajectoryAnalysisSettings) (m : Nat) :
    TrajectoryAnalysisSettings :=
  { s with frflags := m }

/-- Modelled from the spec: hasPBC returns the currently resolved effective
PBC value. -/
def TrajectoryAnalysisSettings.hasPBC (s : TrajectoryAnalysisSettings) : Bool :=
  s.bPBC

/-- Modelled from the spec: hasRmPBC returns the currently resolved effective
whole-molecule value. -/
def TrajectoryAnalysisSettings.hasRmPBC (s : TrajectoryAnalysisSettings) : Bool :=
  s.bRmPBC

/-- Modelled from the spec: the mutating configuration calls an analysis
module may make on the settings object during its declaration phase. -/
inductive SettingsOp where
  | opSetFlags (m : Nat)
  | opSetFlag (f : Nat) (bSet : Bool)
  | opSetPBC (b : Bool)
  | opSetRmPBC (b : Bool)
  | opSetFrameFlags (m : Nat)
deriving DecidableEq

/-- Modelled from the spec: interpretation of one configuration call. -/
def applyOp (s : TrajectoryAnalysisSettings) : SettingsOp → TrajectoryAnalysisSettings
  | .opSetFlags m => s.setFlags m
  | .opSetFlag f bSet => s.setFlag f bSet
  | .opSetPBC b => s.setPBC b
  | .opSetRmPBC b => s.setRmPBC b
  | .opSetFrameFlags m => s.setFrameFlags m

/-- Modelled from the spec: interpretation of a sequence of configuration
calls, in order. -/
def applyOps (s : TrajectoryAnalysisSettings) (ops : List SettingsOp) :
    TrajectoryAnalysisSettings :=
  ops.foldl applyOp s

/-- Claim C7: the requirement-flag constants have exactly the numeric values
requireTopology = 1, useTopologyPositions = 2, useTopologyVelocities = 4,
disallowUserPBCToggle = 16, disallowUserRmPBCToggle = 32, and no flag constant
has the value 8. -/
theorem c7_flag_values :
    efRequireTop = 1 ∧ efUseTopX = 2 ∧ efUseTopV = 4 ∧
    efNoUserPBC = 16 ∧ efNoUserRmPBC = 32 ∧
    efRequireTop ≠ 8 ∧ efUseTopX ≠ 8 ∧ efUseTopV ≠ 8 ∧
    efNoUserPBC ≠ 8 ∧ efNoUserRmPBC ≠ 8 := by
  decide

/-- Claim C8: after any sequence of setter calls starting from the initial
settings, hasFlag f is true exactly when the flag word ANDed with f is
nonzero. -/
theorem c8_hasFlag_iff_and_ne_zero (ops : List SettingsOp) (f : Nat) :
    (applyOps TrajectoryAnalysisSettings.init ops).hasFlag f = true ↔
      (applyOps TrajectoryAnalysisSettings.init ops).flags &&& f ≠ 0 := by
  simp [TrajectoryAnalysisSettings.hasFlag]

theorem testBit_false_of_land_eq_zero (g f : Nat) (h : g &&& f = 0) (i : Nat)
    (hg : g.testBit i = true) : f.testBit i = false := by
  have h1 : (g &&& f).testBit i = false := by rw [h]; simp
  rw [Nat.testBit_and, hg] at h1
  simpa using h1

theorem lor_land_of_disjoint (x f g : Nat) (h : g &&& f = 0) :
    (x ||| f) &&& g = x &&& g := by
  apply Nat.eq_of_testBit_eq
  intro i
  rw [Nat.testBit_and, Nat.testBit_and, Nat.testBit_or]
  cases hg : g.testBit i
  · simp
  · rw [testBit_false_of_land_eq_zero g f h i hg]
    simp

theorem ldiff_land_of_disjoint (x f g : Nat) (h : g &&& f = 0) :
    Nat.ldiff x f &&& g = x &&& g := by
  apply Nat.eq_of_testBit_eq
  intro i
  rw [Nat.testBit_and, Nat.testBit_and, Nat.testBit_ldiff]
  cases hg : g.testBit i
  · simp
  · rw [testBit_false_of_land_eq_zero g f h i hg]
    simp

theorem lor_land_self (x f : Nat) : (x ||| f) &&& f = f := by
  apply Nat.eq_of_testBit_eq
  intro i
  rw [Nat.testBit_and, Nat.testBit_or]
  cases hf : f.testBit i <;> simp

theorem ldiff_land_self (x f : Nat) : Nat.ldiff x f &&& f = 0 := by
  apply Nat.eq_of_testBit_eq
  intro i
  rw [Nat.testBit_and, Nat.testBit_ldiff]
  cases hf : f.testBit i <;> simp

/-- Claim C10: setFlag touches only the bits of the given flag: any flag
disjoint from it reads the same before and after, the set flag itself reads
exactly the requested value afterwards, and setFlags replaces the entire flag
word. -/
theorem c10_setFlag_is_local (s : Gromacs.TrajectoryAnalysisSettings) (f g m : Nat)
    (bSet : Bool) (hf : f ≠ 0) (hdisj : g &&& f = 0) :
    (s.setFlag f bSet).hasFlag g = s.hasFlag g ∧
    (s.setFlag f bSet).hasFlag f = bSet ∧
    (s.setFlags m).flags = m := by
  refine ⟨?_, ?_, rfl⟩
  · cases bSet
    · show decide (Nat.ldiff s.flags f &&& g ≠ 0) = decide (s.flags &&& g ≠ 0)
      rw [ldiff_land_of_disjoint _ _ _ hdisj]
    · show decide ((s.flags ||| f) &&& g ≠ 0) = decide (s.flags &&& g ≠ 0)
      rw [lor_land_of_disjoint _ _ _ hdisj]
  · cases bSet
    · show decide (Nat.ldiff s.flags f &&& f ≠ 0) = false
      rw [ldiff_land_self]
      simp
    · show decide ((s.flags ||| f) &&& f ≠ 0) = true
      rw [lor_land_self]
      simpa using hf

/-- Witness for claim C10 at concrete inputs. -/
theorem c10_setFlag_is_local_witness :
    (Gromacs.TrajectoryAnalysisSettings.init.setFlag Gromacs.efRequireTop true).hasFlag
        Gromacs.efNoUserPBC =
      Gromacs.TrajectoryAnalysisSettings.init.hasFlag Gromacs.efNoUserPBC ∧
    (Gromacs.TrajectoryAnalysisSettings.init.setFlag Gromacs.efRequireTop true).hasFlag
        Gromacs.efRequireTop = true ∧
    (Gromacs.TrajectoryAnalysisSettings.init.setFlags 7).flags = 7 :=
  c10_setFlag_is_local Gromacs.TrajectoryAnalysisSettings.init Gromacs.efRequireTop
    Gromacs.efNoUserPBC 7 true (by decide) (by decide)

/-- Modelled from the spec: recognizer for the setFrameFlags configuration
call. -/
def SettingsOp.isSetFrameFlags : SettingsOp → Bool
  | .opSetFrameFlags _ => true
  | _ => false

theorem applyOps_frflags_const (ops : List SettingsOp) :
    ∀ s : TrajectoryAnalysisSettings, (∀ op ∈ ops, op.isSetFrameFlags = false) →
      (applyOps s ops).frflags = s.frflags := by
  induction ops with
  | nil => intro s _; rfl
  | cons op rest ih =>
    intro s h
    have hop : op.isSetFrameFlags = false := h op (by simp)
    have hrest : ∀ o ∈ rest, o.isSetFrameFlags = false := fun o ho => h o (by simp [ho])
    have hstep : (applyOp s op).frflags = s.frflags := by
      cases op <;> simp_all [applyOp, SettingsOp.isSetFrameFlags,
        TrajectoryAnalysisSettings.setFlags, TrajectoryAnalysisSettings.setFlag,
        TrajectoryAnalysisSettings.setPBC, TrajectoryAnalysisSettings.setRmPBC,
        TrajectoryAnalysisSettings.setFrameFlags]
    calc (applyOps s (op :: rest)).frflags
        = (applyOps (applyOp s op) rest).frflags := rfl
      _ = (applyOp s op).frflags := ih (applyOp s op) hrest
      _ = s.frflags := hstep

/-- Claim C9: setFrameFlags followed by frflags returns exactly the mask set
(round-trip), and when no setFrameFlags call ever occurs, frflags returns the
position-only default mask. -/
theorem c9_frameFlags_roundtrip (s : Gromacs.TrajectoryAnalysisSettings) (m : Nat)
    (ops : List SettingsOp) (h : ∀ op ∈ ops, op.isSetFrameFlags = false) :
    (s.setFrameFlags m).frflags = m ∧
    (applyOps TrajectoryAnalysisSettings.init ops).frflags = TRX_NEED_X :=
  ⟨rfl, applyOps_frflags_const ops TrajectoryAnalysisSettings.init h⟩

/-- Witness for claim C9 at concrete inputs. -/
theorem c9_frameFlags_roundtrip_witness :
    (Gromacs.TrajectoryAnalysisSettings.init.setFrameFlags 5).frflags = 5 ∧
    (Gromacs.applyOps Gromacs.TrajectoryAnalysisSettings.init
        [SettingsOp.opSetPBC false, SettingsOp.opSetFlags 3]).frflags = Gromacs.TRX_NEED_X :=
  c9_frameFlags_roundtrip Gromacs.TrajectoryAnalysisSettings.init 5
    [SettingsOp.opSetPBC false, SettingsOp.opSetFlags 3] (by decide)

/-- Modelled from the spec: optionsFinished reconciles parsed user input with
the settings.  initOptions registers the user-facing pbc (rmpbc) option only
when efNoUserPBC (efNoUserRmPBC) is unset, with the module value as the option
default; hence an explicit user choice reaches the settings only when the
corresponding disallow flag is unset, and an absent user choice leaves the
module value in place. -/
def optionsFinished (userPBC userRmPBC : Option Bool) (s : TrajectoryAnalysisSettings) :
    TrajectoryAnalysisSettings :=
  let s1 := if s.hasFlag efNoUserPBC then s else { s with bPBC := userPBC.getD s.bPBC }
  if s1.hasFlag efNoUserRmPBC then s1 else { s1 with bRmPBC := userRmPBC.getD s1.bRmPBC }

/-- Last value passed to setPBC in a call sequence, with a given default when
setPBC is never called. -/
def lastSetPBCFrom (ops : List SettingsOp) (d : Bool) : Bool :=
  ops.foldl (fun acc op => match op with | .opSetPBC b => b | _ => acc) d

/-- Last value passed to setRmPBC in a call sequence, with a given default
when setRmPBC is never called. -/
def lastSetRmPBCFrom (ops : List SettingsOp) (d : Bool) : Bool :=
  ops.foldl (fun acc op => match op with | .opSetRmPBC b => b | _ => acc) d

/-- Modelled from the spec: recognizer for the setPBC configuration call. -/
def SettingsOp.isSetPBC : SettingsOp → Bool
  | .opSetPBC _ => true
  | _ => false

/-- Modelled from the spec: recognizer for the setRmPBC configuration call. -/
def SettingsOp.isSetRmPBC : SettingsOp → Bool
  | .opSetRmPBC _ => true
  | _ => false

theorem applyOps_bPBC (ops : List SettingsOp) :
    ∀ s : TrajectoryAnalysisSettings,
      (applyOps s ops).bPBC = lastSetPBCFrom ops s.bPBC := by
  induction ops with
  | nil => intro s; rfl
  | cons op rest ih =>
    intro s
    have h1 : applyOps s (op :: rest) = applyOps (applyOp s op) rest := rfl
    rw [h1, ih (applyOp s op)]
    cases op <;> rfl

theorem applyOps_bRmPBC (ops : List SettingsOp) :
    ∀ s : TrajectoryAnalysisSettings,
      (applyOps s ops).bRmPBC = lastSetRmPBCFrom ops s.bRmPBC := by
  induction ops with
  | nil => intro s; rfl
  | cons op rest ih =>
    intro s
    have h1 : applyOps s (op :: rest) = applyOps (applyOp s op) rest := rfl
    rw [h1, ih (applyOp s op)]
    cases op <;> rfl

theorem lastSetPBCFrom_const (ops : List SettingsOp) :
    ∀ d : Bool, (∀ op ∈ ops, op.isSetPBC = false) → lastSetPBCFrom ops d = d := by
  induction ops with
  | nil => intro d _; rfl
  | cons op rest ih =>
    intro d h
    have hop : op.isSetPBC = false := h op (by simp)
    have hrest : ∀ o ∈ rest, o.isSetPBC = false := fun o ho => h o (by simp [ho])
    cases op with
    | opSetPBC b => simp [SettingsOp.isSetPBC] at hop
    | opSetFlags m => exact ih d hrest
    | opSetFlag f bSet => exact ih d hrest
    | opSetRmPBC b => exact ih d hrest
    | opSetFrameFlags m => exact ih d hrest

theorem lastSetRmPBCFrom_const (ops : List SettingsOp) :
    ∀ d : Bool, (∀ op ∈ ops, op.isSetRmPBC = false) → lastSetRmPBCFrom ops d = d := by
  induction ops with
  | nil => intro d _; rfl
  | cons op rest ih =>
    intro d h
    have hop : op.isSetRmPBC = false := h op (by simp)
    have hrest : ∀ o ∈ rest, o.isSetRmPBC = false := fun o ho => h o (by simp [ho])
    cases op with
    | opSetRmPBC b => simp [SettingsOp.isSetRmPBC] at hop
    | opSetFlags m => exact ih d hrest
    | opSetFlag f bSet => exact ih d hrest
    | opSetPBC b => exact ih d hrest
    | opSetFrameFlags m => exact ih d hrest

theorem hasFlag_set_bPBC (s : TrajectoryAnalysisSettings) (b : Bool) (f : Nat) :
    ({ s with bPBC := b } : TrajectoryAnalysisSettings).hasFlag f = s.hasFlag f := rfl

theorem optionsFinished_bPBC (u v : Option Bool) (s : TrajectoryAnalysisSettings) :
    (optionsFinished u v s).bPBC =
      (if s.hasFlag efNoUserPBC then s.bPBC else u.getD s.bPBC) := by
  cases h1 : s.hasFlag efNoUserPBC <;>
    cases h2 : s.hasFlag efNoUserRmPBC <;>
      simp [optionsFinished, h1, h2, hasFlag_set_bPBC]

theorem optionsFinished_bRmPBC (u v : Option Bool) (s : TrajectoryAnalysisSettings) :
    (optionsFinished u v s).bRmPBC =
      (if s.hasFlag efNoUserRmPBC then s.bRmPBC else v.getD s.bRmPBC) := by
  cases h1 : s.hasFlag efNoUserPBC <;>
    cases h2 : s.hasFlag efNoUserRmPBC <;>
      simp [optionsFinished, h1, h2, hasFlag_set_bPBC]

/-- Claim C3: optionsFinished resolves the effective PBC and whole-molecule
booleans by precedence: explicit user choice over module default over global
default (both on); and when neither setPBC nor setRmPBC is ever called and the
user supplies no override, both hasPBC and hasRmPBC return true. -/
theorem c3_pbc_precedence (ops : List SettingsOp) (u v : Option Bool) :
    ((applyOps TrajectoryAnalysisSettings.init ops).hasFlag efNoUserPBC = false →
      (optionsFinished u v (applyOps TrajectoryAnalysisSettings.init ops)).hasPBC =
        u.getD (lastSetPBCFrom ops true)) ∧
    ((applyOps TrajectoryAnalysisSettings.init ops).hasFlag efNoUserRmPBC = false →
      (optionsFinished u v (applyOps TrajectoryAnalysisSettings.init ops)).hasRmPBC =
        v.getD (lastSetRmPBCFrom ops true)) ∧
    ((∀ op ∈ ops, op.isSetPBC = false) → (∀ op ∈ ops, op.isSetRmPBC = false) →
      u = none → v = none →
      (optionsFinished u v (applyOps TrajectoryAnalysisSettings.init ops)).hasPBC = true ∧
      (optionsFinished u v (applyOps TrajectoryAnalysisSettings.init ops)).hasRmPBC = true) := by
  have hPBC : (applyOps TrajectoryAnalysisSettings.init ops).bPBC = lastSetPBCFrom ops true :=
    applyOps_bPBC ops TrajectoryAnalysisSettings.init
  have hRm : (applyOps TrajectoryAnalysisSettings.init ops).bRmPBC =
      lastSetRmPBCFrom ops true :=
    applyOps_bRmPBC ops TrajectoryAnalysisSettings.init
  refine ⟨?_, ?_, ?_⟩
  · intro h
    show (optionsFinished u v (applyOps TrajectoryAnalysisSettings.init ops)).bPBC = _
    rw [optionsFinished_bPBC, h]
    simp [hPBC]
  · intro h
    show (optionsFinished u v (applyOps TrajectoryAnalysisSettings.init ops)).bRmPBC = _
    rw [optionsFinished_bRmPBC, h]
    simp [hRm]
  · intro h1 h2 hu hv
    constructor
    · show (optionsFinished u v (applyOps TrajectoryAnalysisSettings.init ops)).bPBC = true
      rw [optionsFinished_bPBC, hu]
      simp [hPBC, lastSetPBCFrom_const ops true h1]
    · show (optionsFinished u v (applyOps TrajectoryAnalysisSettings.init ops)).bRmPBC = true
      rw [optionsFinished_bRmPBC, hv]
      simp [hRm, lastSetRmPBCFrom_const ops true h2]

/-- Witness for claim C3 at concrete inputs. -/
theorem c3_pbc_precedence_witness :
    (optionsFinished (some false) (some true)
        (applyOps TrajectoryAnalysisSettings.init [SettingsOp.opSetPBC true])).hasPBC =
      (some false).getD (lastSetPBCFrom [SettingsOp.opSetPBC true] true) ∧
    (optionsFinished none none
        (applyOps TrajectoryAnalysisSettings.init [SettingsOp.opSetFlags 1])).hasPBC = true ∧
    (optionsFinished none none
        (applyOps TrajectoryAnalysisSettings.init [SettingsOp.opSetFlags 1])).hasRmPBC = true := by
  refine ⟨(c3_pbc_precedence [SettingsOp.opSetPBC true] (some false) (some true)).1 (by decide),
    ?_, ?_⟩
  · exact ((c3_pbc_precedence [SettingsOp.opSetFlags 1] none none).2.2 (by decide) (by decide)
      rfl rfl).1
  · exact ((c3_pbc_precedence [SettingsOp.opSetFlags 1] none none).2.2 (by decide) (by decide)
      rfl rfl).2

/-- Claim C4: with the disallow-user-toggle flag set, a module call of
setPBC false (setRmPBC false) makes hasPBC (hasRmPBC) read false regardless of
any attempted user override, because the user-facing option was never
registered. -/
theorem c4_disallow_user_toggle (s : TrajectoryAnalysisSettings) (u v : Option Bool) :
    (s.hasFlag efNoUserPBC = true →
      (optionsFinished u v (s.setPBC false)).hasPBC = false) ∧
    (s.hasFlag efNoUserRmPBC = true →
      (optionsFinished u v (s.setRmPBC false)).hasRmPBC = false) := by
  constructor
  · intro h
    have hflag : (s.setPBC false).hasFlag efNoUserPBC = true := h
    show (optionsFinished u v (s.setPBC false)).bPBC = false
    rw [optionsFinished_bPBC, hflag]
    rfl
  · intro h
    have hflag : (s.setRmPBC false).hasFlag efNoUserRmPBC = true := h
    show (optionsFinished u v (s.setRmPBC false)).bRmPBC = false
    rw [optionsFinished_bRmPBC, hflag]
    rfl

/-- Witness for claim C4 at concrete inputs. -/
theorem c4_disallow_user_toggle_witness :
    (optionsFinished (some true) (some true)
        ((TrajectoryAnalysisSettings.init.setFlags
          (efNoUserPBC ||| efNoUserRmPBC)).setPBC false)).hasPBC = false ∧
    (optionsFinished (some true) (some true)
        ((TrajectoryAnalysisSettings.init.setFlags
          (efNoUserPBC ||| efNoUserRmPBC)).setRmPBC false)).hasRmPBC = false :=
  ⟨(c4_disallow_user_toggle
      (TrajectoryAnalysisSettings.init.setFlags (efNoUserPBC ||| efNoUserRmPBC))
      (some true) (some true)).1 (by decide),
   (c4_disallow_user_toggle
      (TrajectoryAnalysisSettings.init.setFlags (efNoUserPBC ||| efNoUserRmPBC))
      (some true) (some true)).2 (by decide)⟩

/-- Integer coordinate triple: one atom position, or the three edge lengths
of the rectangular periodic box. -/
structure Vec3 where
  x : Int
  y : Int
  z : Int
deriving DecidableEq

/-- Modelled from the spec: the reusable frame buffer — the periodic box and
the position array of the currently loaded trajectory step. -/
structure Frame where
  box : Vec3
  positions : List Vec3
deriving DecidableEq

/-- Modelled from the spec: TopologyInformation — the atom count and the
bonded-group connectivity needed for whole-molecule reconstruction, given as
the spanning-tree traversal edges of the bonded groups: each edge is a pair
(child, parent) with the parent visited before the child. -/
structure TopologyInformation where
  natoms : Nat
  bondTreeEdges : List (Nat × Nat)
deriving DecidableEq

/-- Modelled from the spec: a topology file handed to the loader; loadable
tells whether the external loader can parse it. -/
structure TopologyFile where
  loadable : Bool
  content : TopologyInformation
deriving DecidableEq

/-- Modelled from the spec: the error taxonomy of the runner (section 7). -/
inductive RunnerError where
  | configurationError
  | ioError
deriving DecidableEq

/-- Modelled from the spec: initTopology loads the topology when a topology
path was supplied or the requireTopology flag is set, and fails with a
configuration error when a required topology is missing or unloadable. -/
def initTopology (requireTop : Bool) (file : Option TopologyFile) :
    Except RunnerError (Option TopologyInformation) :=
  match file with
  | some f =>
    if f.loadable then .ok (some f.content) else .error .configurationError
  | none =>
    if requireTop then .error .configurationError else .ok none

/-- Claim C5: initTopology loads the topology exactly when a path was
supplied or requireTopology is set (succeeding without a topology only when
neither holds), and fails with a ConfigurationError whenever the topology is
required but missing, or a supplied file is unloadable. -/
theorem c5_initTopology_requirements (requireTop : Bool) (file : Option TopologyFile) :
    (initTopology requireTop file = .ok none ↔ file = none ∧ requireTop = false) ∧
    (requireTop = true → file = none →
      initTopology requireTop file = .error RunnerError.configurationError) ∧
    (∀ f, file = some f → f.loadable = false →
      initTopology requireTop file = .error RunnerError.configurationError) ∧
    (∀ f, file = some f → f.loadable = true →
      initTopology requireTop file = .ok (some f.content)) := by
  rcases file with _ | f
  · cases requireTop <;> simp [initTopology]
  · cases hl : f.loadable <;> cases requireTop <;> simp [initTopology, hl]

/-- Witness for claim C5 at concrete inputs. -/
theorem c5_initTopology_requirements_witness :
    initTopology true none = .error RunnerError.configurationError :=
  (c5_initTopology_requirements true none).2.1 rfl rfl

/-- Modelled from the spec: the trajectory-reading state of the runner — the
current frame buffer together with the not-yet-read frames of the opened
trajectory. -/
structure RunnerState where
  current : Frame
  remaining : List Frame
deriving DecidableEq

/-- Modelled from the spec: initFirstFrame opens the trajectory and reads its
first frame into the frame buffer; it fails with an IO error when the
trajectory contains no frames. -/
def initFirstFrame (traj : List Frame) : Except RunnerError RunnerState :=
  match traj with
  | [] => .error .ioError
  | f :: rest => .ok ⟨f, rest⟩

/-- Modelled from the spec: readNextFrame advances to the next frame,
overwriting the frame buffer, and returns false exactly at end of stream,
leaving the state unchanged there. -/
def readNextFrame (s : RunnerState) : Bool × RunnerState :=
  match s.remaining with
  | [] => (false, s)
  | f :: rest => (true, ⟨f, rest⟩)

/-- State of the runner after a number of readNextFrame calls. -/
def afterCalls (s : RunnerState) : Nat → RunnerState
  | 0 => s
  | k + 1 => (readNextFrame (afterCalls s k)).2

/-- Return value of the k-th readNextFrame call (k counted from 1): the call
made on the state reached after k minus 1 calls. -/
def callResult (s : RunnerState) (k : Nat) : Bool :=
  (readNextFrame (afterCalls s (k - 1))).1

theorem readNextFrame_snd_remaining (s : RunnerState) :
    (readNextFrame s).2.remaining = s.remaining.drop 1 := by
  obtain ⟨c, rem⟩ := s
  cases rem <;> rfl

theorem readNextFrame_fst (s : RunnerState) :
    (readNextFrame s).1 = !s.remaining.isEmpty := by
  obtain ⟨c, rem⟩ := s
  cases rem <;> rfl

theorem readNextFrame_of_exhausted (s : RunnerState) (h : s.remaining = []) :
    readNextFrame s = (false, s) := by
  obtain ⟨c, rem⟩ := s
  cases rem
  · rfl
  · simp at h

theorem afterCalls_remaining (s : RunnerState) :
    ∀ k : Nat, (afterCalls s k).remaining = s.remaining.drop k := by
  intro k
  induction k with
  | zero => rfl
  | succ k ih =>
    calc (afterCalls s (k + 1)).remaining
        = (readNextFrame (afterCalls s k)).2.remaining := rfl
      _ = (afterCalls s k).remaining.drop 1 := readNextFrame_snd_remaining _
      _ = (s.remaining.drop k).drop 1 := by rw [ih]
      _ = s.remaining.drop (k + 1) := by rw [List.drop_drop]

theorem afterCalls_add (s : RunnerState) (a : Nat) :
    ∀ b : Nat, afterCalls s (a + b) = afterCalls (afterCalls s a) b := by
  intro b
  induction b with
  | zero => rfl
  | succ b ih =>
    calc afterCalls s (a + (b + 1))
        = (readNextFrame (afterCalls s (a + b))).2 := rfl
      _ = (readNextFrame (afterCalls (afterCalls s a) b)).2 := by rw [ih]
      _ = afterCalls (afterCalls s a) (b + 1) := rfl

theorem afterCalls_of_exhausted (s : RunnerState) (h : s.remaining = []) :
    ∀ m : Nat, afterCalls s m = s := by
  intro m
  induction m with
  | zero => rfl
  | succ m ih =>
    calc afterCalls s (m + 1)
        = (readNextFrame (afterCalls s m)).2 := rfl
      _ = (readNextFrame s).2 := by rw [ih]
      _ = s := by rw [readNextFrame_of_exhausted s h]

/-- Claim C2: for a trajectory with N frames (N at least 1), after a
successful initFirstFrame each of the first N minus 1 readNextFrame calls
returns true, the N-th call returns false, and every later call also returns
false with the runner state frozen at the exhausted state reached after
N minus 1 calls (no side effects). -/
theorem c2_frame_iteration (traj : List Frame) (s0 : RunnerState)
    (h : initFirstFrame traj = .ok s0) :
    (∀ k, 1 ≤ k → k < traj.length → callResult s0 k = true) ∧
    callResult s0 traj.length = false ∧
    (∀ j, traj.length ≤ j →
      callResult s0 j = false ∧
      afterCalls s0 j = afterCalls s0 (traj.length - 1)) := by
  rcases traj with _ | ⟨f, rest⟩
  · exact absurd h (by simp [initFirstFrame])
  · have hs0 : s0 = ⟨f, rest⟩ := by
      simpa [initFirstFrame] using h.symm
    subst hs0
    have hrem : ∀ k : Nat, (afterCalls (⟨f, rest⟩ : RunnerState) k).remaining = rest.drop k :=
      afterCalls_remaining ⟨f, rest⟩
    have hres : ∀ k : Nat, callResult (⟨f, rest⟩ : RunnerState) k =
        !(rest.drop (k - 1)).isEmpty := by
      intro k
      rw [callResult, readNextFrame_fst, hrem]
    refine ⟨?_, ?_, ?_⟩
    · intro k hk1 hkN
      rw [hres]
      have hlt : k - 1 < rest.length := by
        simp only [List.length_cons] at hkN
        omega
      have : rest.drop (k - 1) ≠ [] := by
        intro hnil
        rw [List.drop_eq_nil_iff] at hnil
        omega
      simp [List.isEmpty_iff, this]
    · rw [hres]
      have : rest.drop (rest.length + 1 - 1) = [] := by
        rw [List.drop_eq_nil_iff]
        omega
      simp [List.length_cons, this]
    · intro j hj
      simp only [List.length_cons] at hj
      have hstate : afterCalls (⟨f, rest⟩ : RunnerState) j =
          afterCalls (⟨f, rest⟩ : RunnerState) rest.length := by
        have hsplit : j = rest.length + (j - rest.length) := by omega
        rw [hsplit, afterCalls_add]
        exact afterCalls_of_exhausted _ (by rw [hrem, List.drop_eq_nil_iff]) _
      constructor
      · rw [hres]
        have : rest.drop (j - 1) = [] := by
          rw [List.drop_eq_nil_iff]
          omega
        simp [this]
      · simpa [List.length_cons] using hstate

/-- Witness for claim C2 at a concrete three-frame trajectory. -/
theorem c2_frame_iteration_witness :
    (∀ k, 1 ≤ k → k < 3 → callResult ⟨⟨⟨0, 0, 0⟩, []⟩,
        [⟨⟨0, 0, 0⟩, []⟩, ⟨⟨1, 1, 1⟩, []⟩]⟩ k = true) ∧
    callResult ⟨⟨⟨0, 0, 0⟩, []⟩, [⟨⟨0, 0, 0⟩, []⟩, ⟨⟨1, 1, 1⟩, []⟩]⟩ 3 = false ∧
    (∀ j, 3 ≤ j →
      callResult ⟨⟨⟨0, 0, 0⟩, []⟩, [⟨⟨0, 0, 0⟩, []⟩, ⟨⟨1, 1, 1⟩, []⟩]⟩ j = false ∧
      afterCalls ⟨⟨⟨0, 0, 0⟩, []⟩, [⟨⟨0, 0, 0⟩, []⟩, ⟨⟨1, 1, 1⟩, []⟩]⟩ j =
        afterCalls ⟨⟨⟨0, 0, 0⟩, []⟩, [⟨⟨0, 0, 0⟩, []⟩, ⟨⟨1, 1, 1⟩, []⟩]⟩ 2) := by
  have h := c2_frame_iteration
    [⟨⟨0, 0, 0⟩, []⟩, ⟨⟨0, 0, 0⟩, []⟩, ⟨⟨1, 1, 1⟩, []⟩]
    ⟨⟨⟨0, 0, 0⟩, []⟩, [⟨⟨0, 0, 0⟩, []⟩, ⟨⟨1, 1, 1⟩, []⟩]⟩ rfl
  simpa using h

/-- Modelled from the spec: one coordinate of the minimum-image choice.
Among the periodic images p + k * L of coordinate p, pick the one closest to
the already-unwrapped bonded-neighbor coordinate q (a tie at exactly half the
box is broken towards the larger image). -/
def minImage (L q p : Int) : Int :=
  if 2 * ((q - p) % L) < L then q - (q - p) % L else q - (q - p) % L + L

theorem minImage_sub_window (L q p : Int) (hL : 0 < L) :
    -L < 2 * (minImage L q p - q) ∧ 2 * (minImage L q p - q) ≤ L := by
  have h0 : 0 ≤ (q - p) % L := Int.emod_nonneg _ (by omega)
  have h1 : (q - p) % L < L := Int.emod_lt_of_pos _ hL
  unfold minImage
  generalize (q - p) % L = r at *
  split <;> omega

theorem minImage_eq_self (L q p : Int) (_hL : 0 < L)
    (h1 : -L < 2 * (p - q)) (h2 : 2 * (p - q) ≤ L) : minImage L q p = p := by
  rcases le_or_lt p q with hpq | hpq
  · have hr : (q - p) % L = q - p := Int.emod_eq_of_lt (by omega) (by omega)
    unfold minImage
    rw [hr]
    split <;> omega
  · have hr : (q - p) % L = q - p + L := by
      have hshift : (q - p + L * 1) % L = (q - p) % L := Int.add_mul_emod_self_left _ _ _
      rw [mul_one] at hshift
      rw [← hshift]
      exact Int.emod_eq_of_lt (by omega) (by omega)
    unfold minImage
    rw [hr]
    split <;> omega

/-- Minimum image applied in each box dimension independently. -/
def minImageVec (box q p : Vec3) : Vec3 :=
  ⟨minImage box.x q.x p.x, minImage box.y q.y p.y, minImage box.z q.z p.z⟩

/-- A rectangular periodic box with positive edge lengths. -/
def PosBox (box : Vec3) : Prop := 0 < box.x ∧ 0 < box.y ∧ 0 < box.z

instance (box : Vec3) : Decidable (PosBox box) := by
  unfold PosBox
  infer_instance

/-- Position a lies in the half-open minimum-image window of position b:
its displacement from b is within half the box length in every dimension
(strictly above the lower half, at most the upper half). -/
def ImageAligned (box a b : Vec3) : Prop :=
  (-box.x < 2 * (a.x - b.x) ∧ 2 * (a.x - b.x) ≤ box.x) ∧
  (-box.y < 2 * (a.y - b.y) ∧ 2 * (a.y - b.y) ≤ box.y) ∧
  (-box.z < 2 * (a.z - b.z) ∧ 2 * (a.z - b.z) ≤ box.z)

instance (box a b : Vec3) : Decidable (ImageAligned box a b) := by
  unfold ImageAligned
  infer_instance

theorem minImageVec_aligned (box q p : Vec3) (hbox : PosBox box) :
    ImageAligned box (minImageVec box q p) q :=
  ⟨minImage_sub_window box.x q.x p.x hbox.1,
   minImage_sub_window box.y q.y p.y hbox.2.1,
   minImage_sub_window box.z q.z p.z hbox.2.2⟩

theorem minImageVec_eq_self (box q p : Vec3) (hbox : PosBox box)
    (h : ImageAligned box p q) : minImageVec box q p = p := by
  have ex : minImage box.x q.x p.x = p.x :=
    minImage_eq_self box.x q.x p.x hbox.1 h.1.1 h.1.2
  have ey : minImage box.y q.y p.y = p.y :=
    minImage_eq_self box.y q.y p.y hbox.2.1 h.2.1.1 h.2.1.2
  have ez : minImage box.z q.z p.z = p.z :=
    minImage_eq_self box.z q.z p.z hbox.2.2 h.2.2.1 h.2.2.2
  show (⟨minImage box.x q.x p.x, minImage box.y q.y p.y, minImage box.z q.z p.z⟩ : Vec3) = p
  rw [ex, ey, ez]

/-- Modelled from the spec: one step of whole-molecule reconstruction:
write back the minimum-image position of the child atom of one traversal
edge (child, parent) relative to its already-unwrapped parent. -/
def makeWholeStep (box : Vec3) (ps : List Vec3) (e : Nat × Nat) : List Vec3 :=
  match ps[e.2]?, ps[e.1]? with
  | some q, some p => ps.set e.1 (minImageVec box q p)
  | some _, none => ps
  | none, _ => ps

/-- Modelled from the spec: whole-molecule reconstruction — process the
bonded-group spanning-tree traversal edges in order; for each newly visited
atom choose the periodic image of its position closest to its
already-unwrapped bonded neighbor and write it back into the position
array. -/
def makeMoleculesWhole (box : Vec3) (edges : List (Nat × Nat)) (ps : List Vec3) : List Vec3 :=
  edges.foldl (makeWholeStep box) ps

/-- Traversal-order validity of bonded-group spanning-tree edges: every edge
joins two distinct atoms in range, and no later edge rewrites an atom of an
earlier edge (each atom is written at most once, and only before any use of
it as a parent by a later edge). -/
def ValidTraversal (n : Nat) (edges : List (Nat × Nat)) : Prop :=
  (∀ e ∈ edges, e.1 < n ∧ e.2 < n ∧ e.1 ≠ e.2) ∧
  edges.Pairwise (fun e e' => e'.1 ≠ e.1 ∧ e'.1 ≠ e.2)

instance (n : Nat) (edges : List (Nat × Nat)) : Decidable (ValidTraversal n edges) := by
  unfold ValidTraversal
  infer_instance

theorem makeWholeStep_length (box : Vec3) (ps : List Vec3) (e : Nat × Nat) :
    (makeWholeStep box ps e).length = ps.length := by
  unfold makeWholeStep
  split <;> simp

theorem makeMoleculesWhole_length (box : Vec3) (edges : List (Nat × Nat)) :
    ∀ ps : List Vec3, (makeMoleculesWhole box edges ps).length = ps.length := by
  induction edges with
  | nil => intro ps; rfl
  | cons e0 rest ih =>
    intro ps
    calc (makeMoleculesWhole box (e0 :: rest) ps).length
        = (makeMoleculesWhole box rest (makeWholeStep box ps e0)).length := rfl
      _ = (makeWholeStep box ps e0).length := ih _
      _ = ps.length := makeWholeStep_length box ps e0

theorem makeWholeStep_untouched (box : Vec3) (ps : List Vec3) (e : Nat × Nat)
    (i : Nat) (h : e.1 ≠ i) : (makeWholeStep box ps e)[i]? = ps[i]? := by
  unfold makeWholeStep
  split
  · rw [List.getElem?_set_ne h]
  · rfl
  · rfl

theorem makeMoleculesWhole_untouched (box : Vec3) (edges : List (Nat × Nat)) :
    ∀ (ps : List Vec3) (i : Nat), (∀ e ∈ edges, e.1 ≠ i) →
      (makeMoleculesWhole box edges ps)[i]? = ps[i]? := by
  induction edges with
  | nil => intro ps i _; rfl
  | cons e0 rest ih =>
    intro ps i h
    calc (makeMoleculesWhole box (e0 :: rest) ps)[i]?
        = (makeMoleculesWhole box rest (makeWholeStep box ps e0))[i]? := rfl
      _ = (makeWholeStep box ps e0)[i]? := ih _ i (fun e he => h e (by simp [he]))
      _ = ps[i]? := makeWholeStep_untouched box ps e0 i (h e0 (by simp))

theorem makeWholeStep_at_child (box : Vec3) (ps : List Vec3) (e : Nat × Nat)
    (q p : Vec3) (hq : ps[e.2]? = some q) (hp : ps[e.1]? = some p) (hne : e.1 ≠ e.2) :
    (makeWholeStep box ps e)[e.1]? = some (minImageVec box q p) ∧
    (makeWholeStep box ps e)[e.2]? = some q := by
  have hlt : e.1 < ps.length := by
    obtain ⟨hw, -⟩ := List.getElem?_eq_some_iff.1 hp
    exact hw
  constructor
  · unfold makeWholeStep
    rw [hq, hp]
    rw [List.getElem?_set_self hlt]
  · unfold makeWholeStep
    rw [hq, hp]
    rw [List.getElem?_set_ne hne]
    exact hq

theorem makeMoleculesWhole_aligned (box : Vec3) (hbox : PosBox box) :
    ∀ (edges : List (Nat × Nat)) (ps : List Vec3),
      ValidTraversal ps.length edges →
      ∀ e ∈ edges, ∃ a b,
        (makeMoleculesWhole box edges ps)[e.1]? = some a ∧
        (makeMoleculesWhole box edges ps)[e.2]? = some b ∧
        ImageAligned box a b := by
  intro edges
  induction edges with
  | nil =>
    intro ps _ e he
    simp at he
  | cons e0 rest ih =>
    intro ps hval e he
    obtain ⟨hbounds, hpair⟩ := hval
    rw [List.pairwise_cons] at hpair
    obtain ⟨hb1, hb2, hbne⟩ := hbounds e0 (by simp)
    have hq : ps[e0.2]? = some ps[e0.2] := List.getElem?_eq_getElem hb2
    have hp : ps[e0.1]? = some ps[e0.1] := List.getElem?_eq_getElem hb1
    have hstep := makeWholeStep_at_child box ps e0 ps[e0.2] ps[e0.1] hq hp hbne
    have hrw : makeMoleculesWhole box (e0 :: rest) ps =
        makeMoleculesWhole box rest (makeWholeStep box ps e0) := rfl
    rcases List.mem_cons.1 he with heq | he
    · subst heq
      refine ⟨minImageVec box ps[e.2] ps[e.1], ps[e.2], ?_, ?_, ?_⟩
      · rw [hrw, makeMoleculesWhole_untouched box rest _ e.1
          (fun e' he' => (hpair.1 e' he').1)]
        exact hstep.1
      · rw [hrw, makeMoleculesWhole_untouched box rest _ e.2
          (fun e' he' => (hpair.1 e' he').2)]
        exact hstep.2
      · exact minImageVec_aligned box ps[e.2] ps[e.1] hbox
    · rw [hrw]
      apply ih (makeWholeStep box ps e0) _ e he
      constructor
      · intro e' he'
        rw [makeWholeStep_length]
        exact hbounds e' (by simp [he'])
      · exact hpair.2

theorem set_getElem?_self (ps : List Vec3) (i : Nat) (a : Vec3)
    (h : ps[i]? = some a) : ps.set i a = ps := by
  apply List.ext_getElem?
  intro n
  by_cases hn : i = n
  · subst hn
    obtain ⟨hlt, -⟩ := List.getElem?_eq_some_iff.1 h
    rw [List.getElem?_set_self hlt]
    exact h.symm
  · rw [List.getElem?_set_ne hn]

theorem makeMoleculesWhole_fixed (box : Vec3) (hbox : PosBox box) :
    ∀ (edges : List (Nat × Nat)) (ps : List Vec3),
      (∀ e ∈ edges, ∃ a b, ps[e.1]? = some a ∧ ps[e.2]? = some b ∧ ImageAligned box a b) →
      makeMoleculesWhole box edges ps = ps := by
  intro edges
  induction edges with
  | nil => intro ps _; rfl
  | cons e0 rest ih =>
    intro ps h
    obtain ⟨a, b, ha, hb, hal⟩ := h e0 (by simp)
    have hstep : makeWholeStep box ps e0 = ps := by
      unfold makeWholeStep
      rw [ha, hb]
      show ps.set e0.1 (minImageVec box b a) = ps
      rw [minImageVec_eq_self box b a hbox hal]
      exact set_getElem?_self ps e0.1 a ha
    calc makeMoleculesWhole box (e0 :: rest) ps
        = makeMoleculesWhole box rest (makeWholeStep box ps e0) := rfl
      _ = makeMoleculesWhole box rest ps := by rw [hstep]
      _ = ps := ih ps (fun e he => h e (by simp [he]))

theorem two_abs_le_of_window (d L : Int) (h1 : -L < 2 * d) (h2 : 2 * d ≤ L) :
    2 * |d| ≤ L := by
  rcases abs_cases d with ⟨heq, -⟩ | ⟨heq, -⟩ <;> rw [heq] <;> omega

theorem window_of_two_abs_lt (d L : Int) (h : 2 * |d| < L) :
    -L < 2 * d ∧ 2 * d ≤ L := by
  rcases abs_cases d with ⟨heq, hsign⟩ | ⟨heq, hsign⟩ <;> rw [heq] at h <;>
    constructor <;> omega

/-- Claim C1: after whole-molecule reconstruction, within every bonded group
no bonded-neighbor (traversal-edge) pair is displaced by more than half the
box length in any box dimension; and when the atoms of the bonded groups
already lie within one periodic image of each other (every bonded-neighbor
displacement strictly below half the box in every dimension), reconstruction
leaves every position unchanged. -/
theorem c1_make_whole (box : Vec3) (edges : List (Nat × Nat)) (ps : List Vec3)
    (hbox : PosBox box) (hval : ValidTraversal ps.length edges) :
    (∀ e ∈ edges, ∃ a b,
        (makeMoleculesWhole box edges ps)[e.1]? = some a ∧
        (makeMoleculesWhole box edges ps)[e.2]? = some b ∧
        2 * |a.x - b.x| ≤ box.x ∧ 2 * |a.y - b.y| ≤ box.y ∧ 2 * |a.z - b.z| ≤ box.z) ∧
    ((∀ e ∈ edges, ∃ a b, ps[e.1]? = some a ∧ ps[e.2]? = some b ∧
        2 * |a.x - b.x| < box.x ∧ 2 * |a.y - b.y| < box.y ∧ 2 * |a.z - b.z| < box.z) →
      makeMoleculesWhole box edges ps = ps) := by
  constructor
  · intro e he
    obtain ⟨a, b, ha, hb, hal⟩ := makeMoleculesWhole_aligned box hbox edges ps hval e he
    exact ⟨a, b, ha, hb,
      two_abs_le_of_window _ _ hal.1.1 hal.1.2,
      two_abs_le_of_window _ _ hal.2.1.1 hal.2.1.2,
      two_abs_le_of_window _ _ hal.2.2.1 hal.2.2.2⟩
  · intro h
    apply makeMoleculesWhole_fixed box hbox edges ps
    intro e he
    obtain ⟨a, b, ha, hb, hx, hy, hz⟩ := h e he
    exact ⟨a, b, ha, hb, window_of_two_abs_lt _ _ hx, window_of_two_abs_lt _ _ hy,
      window_of_two_abs_lt _ _ hz⟩

/-- Witness for claim C1 on a concrete two-atom chain straddling the box
boundary of a cubic box of edge 10. -/
theorem c1_make_whole_witness :
    (∀ e ∈ [((1 : Nat), (0 : Nat))], ∃ a b,
        (makeMoleculesWhole ⟨10, 10, 10⟩ [(1, 0)] [⟨0, 0, 0⟩, ⟨9, 0, 0⟩])[e.1]? = some a ∧
        (makeMoleculesWhole ⟨10, 10, 10⟩ [(1, 0)] [⟨0, 0, 0⟩, ⟨9, 0, 0⟩])[e.2]? = some b ∧
        2 * |a.x - b.x| ≤ 10 ∧ 2 * |a.y - b.y| ≤ 10 ∧ 2 * |a.z - b.z| ≤ 10) ∧
    ((∀ e ∈ [((1 : Nat), (0 : Nat))], ∃ a b,
        ([⟨0, 0, 0⟩, ⟨9, 0, 0⟩] : List Vec3)[e.1]? = some a ∧
        ([⟨0, 0, 0⟩, ⟨9, 0, 0⟩] : List Vec3)[e.2]? = some b ∧
        2 * |a.x - b.x| < 10 ∧ 2 * |a.y - b.y| < 10 ∧ 2 * |a.z - b.z| < 10) →
      makeMoleculesWhole ⟨10, 10, 10⟩ [(1, 0)] [⟨0, 0, 0⟩, ⟨9, 0, 0⟩] =
        [⟨0, 0, 0⟩, ⟨9, 0, 0⟩]) :=
  c1_make_whole ⟨10, 10, 10⟩ [(1, 0)] [⟨0, 0, 0⟩, ⟨9, 0, 0⟩] (by decide) (by decide)

/-- Modelled from the spec: initFrame performs per-current-frame
normalization: when the resolved whole-molecule setting is on it reconstructs
the bonded groups in place; otherwise it leaves the frame alone. -/
def initFrame (makeWhole : Bool) (top : TopologyInformation) (f : Frame) : Frame :=
  if makeWhole then
    { f with positions := makeMoleculesWhole f.box top.bondTreeEdges f.positions }
  else f

/-- Claim C6: initFrame is idempotent on an unchanged frame: a second
invocation on the unchanged current frame reproduces exactly the same
positions, for every frame and every resolved whole-molecule setting. -/
theorem c6_initFrame_idempotent (makeWhole : Bool) (top : TopologyInformation) (f : Frame)
    (hbox : PosBox f.box) (hval : ValidTraversal f.positions.length top.bondTreeEdges) :
    initFrame makeWhole top (initFrame makeWhole top f) = initFrame makeWhole top f := by
  cases makeWhole
  · rfl
  · have key : makeMoleculesWhole f.box top.bondTreeEdges
        (makeMoleculesWhole f.box top.bondTreeEdges f.positions) =
        makeMoleculesWhole f.box top.bondTreeEdges f.positions :=
      makeMoleculesWhole_fixed f.box hbox top.bondTreeEdges _
        (makeMoleculesWhole_aligned f.box hbox top.bondTreeEdges f.positions hval)
    simp [initFrame, key]

/-- Witness for claim C6 on a concrete frame and topology. -/
theorem c6_initFrame_idempotent_witness :
    initFrame true ⟨2, [(1, 0)]⟩
        (initFrame true ⟨2, [(1, 0)]⟩ ⟨⟨10, 10, 10⟩, [⟨0, 0, 0⟩, ⟨9, 0, 0⟩]⟩) =
      initFrame true ⟨2, [(1, 0)]⟩ ⟨⟨10, 10, 10⟩, [⟨0, 0, 0⟩, ⟨9, 0, 0⟩]⟩ :=
  c6_initFrame_idempotent true ⟨2, [(1, 0)]⟩ ⟨⟨10, 10, 10⟩, [⟨0, 0, 0⟩, ⟨9, 0, 0⟩]⟩
    (by decide) (by decide)

end Gromacs
